import Mathlib

/-!
# sksg geometry effects (modules/sksg/src/SkSGGeometryEffect.cpp)

A shallow embedding of the geometry-effect nodes of the scene graph:
`GeometryEffect` with its caching revalidation, and the four derivations
`TrimEffect`, `GeometryTransform`, `DashEffect` and `RoundEffect`.

Conventions of the embedding.

* The node graph outside the effect (the child geometry node, the transform
  node, the invalidation controller) lives in a world `W`; `sk_sp` pointers are
  handles (`GN`, `TN`, `IC`) into it and a method call on a pointee is a
  function on the world. A null pointer is `none`.
* `SkScalar` is a type `S`, `SkPath` a type `P`, `SkMatrix` a type `M`,
  `SkRect` a type `R`, `SkPathEffect` a type `E`, `SkStrokeRec` a type `Rec`.
* A failed `SkASSERT` / `SkAssertResult` ends the call: the result is `none`.
* Every function returns, next to its value, the calls it made on the
  collaborators, in program order.
-/

namespace sksg

/-- Coordinates of a point, `SkPoint`. -/
structure SkPoint (S : Type) where
  fX : S
  fY : S
deriving DecidableEq, Repr

/-- Clip operations of the canvas, `SkClipOp`; `onClip` names
`SkClipOp::kIntersect`. -/
inductive SkClipOp where
  | kDifference
  | kIntersect
deriving DecidableEq, Repr

/-- A call made on a collaborator of the geometry effects. -/
inductive Call (S P M IC GN TN E Mode : Type) where
  | revalidate (node : GN) (ic : Option IC) (ctm : M)
  | asPath (node : GN)
  | revalidateTransform (transform : TN) (ic : Option IC) (ctm : M)
  | asMatrix (transform : TN)
  | trimMake (start stop : S) (mode : Mode)
  | dashMake (intervals : List S) (count : Int) (phase : S)
  | cornerMake (radius : S)
  | filterPath (effect : E) (src : P)
deriving DecidableEq, Repr

/-- The scene-graph nodes the effects depend on: `GeometryNode::revalidate`
and `asPath` of the child, `Transform::revalidate` and
`TransformPriv::As<SkMatrix>` of the transform. Each one acts on the world. -/
structure Nodes (W GN TN IC M R P : Type) where
  revalidate : W → GN → Option IC → M → R × W
  asPath : W → GN → P
  revalidateTransform : W → TN → Option IC → M → R × W
  asMatrix : W → TN → M

/-- The path and matrix operations used by the effects: `SkMatrix::I`,
`SkPath::transform`, `SkPath::computeTightBounds`, `SkPath::contains`. -/
structure Paths (S P M R : Type) where
  I : M
  transform : P → M → P
  computeTightBounds : P → R
  contains : P → S → S → Bool

/-- The path-effect collaborators: the three factories
`SkTrimPathEffect::Make`, `SkDashPathEffect::Make`, `SkCornerPathEffect::Make`
(a null result is `none`), the filter of an effect
`(path, strokeContext, cull) -> filteredPath, success`, the hairline stroke
record, and the indeterminate content of freshly resized array storage. -/
structure Effects (S P R E Rec Mode : Type) where
  trimMake : S → S → Mode → Option E
  dashMake : List S → Int → S → Option E
  cornerMake : S → Option E
  onFilterPath : E → P → Rec → Option R → P × Bool
  kHairline_InitStyle : Rec
  uninit : Nat → S

section Embedding

variable {S P M R IC W GN TN E Rec Mode : Type}

/-- Content of an `SkSTArray` after `resize(n)` on an empty array: `n` slots
of indeterminate content. -/
def resize (fx : Effects S P R E Rec Mode) (n : Nat) : List S :=
  (List.range n).map fx.uninit

/-- The algorithm `std::copy(first, last, out)` where `out` points at index
`offset` of `storage`: the elements of `src` overwrite the slots
`offset, offset + 1, ...` of `storage`, which the caller has made room
for. -/
def copy (src : List S) (storage : List S) (offset : Nat) : List S :=
  storage.take offset ++ src ++ storage.drop (offset + src.length)

/-- The helper `make_dash`: no effect for an empty interval list; an odd
number of intervals is written twice into `storage`; the pattern, its count
and the phase go to `SkDashPathEffect::Make`. The pattern is what the factory
reads through `intervals_ptr`. Sizes are natural numbers, and `SkToInt` hands
the size over as an `int` of the same value. -/
def make_dash (fx : Effects S P R E Rec Mode) (intervals : List S) (phase : S) :
    Option E × List (Call S P M IC GN TN E Mode) :=
  if intervals.isEmpty then
    (none, [])
  else
    let intervals_count : Nat := intervals.length
    if intervals_count &&& 1 ≠ 0 then
      let intervals_count := intervals_count * 2
      let storage := resize fx intervals_count
      let storage := copy intervals storage 0
      let storage := copy intervals storage intervals.length
      (fx.dashMake storage (intervals_count : Int) phase,
        [Call.dashMake storage (intervals_count : Int) phase])
    else
      (fx.dashMake intervals (intervals_count : Int) phase,
        [Call.dashMake intervals (intervals_count : Int) phase])

/-- Modelled from the spec: `SkPathEffect::filterPath`, which is not among the
sources, as called in `filterPath(&path, path, &rec, nullptr)` with the
destination aliasing the source. The spec gives a path filter as a pure
function `(path, params, strokeContext) -> filteredPath, success` and says
that a declining filter leaves the caller with the unmodified path. The
result is the content of `path` after the call and the success flag. -/
def filterPath (fx : Effects S P R E Rec Mode) (effect : E) (path : P) (strokeRec : Rec) :
    P × Bool :=
  let r := fx.onFilterPath effect path strokeRec none
  if r.2 then (r.1, true) else (path, false)

/-- Modelled from the spec: `SkPath::shrinkToFit`, which is not among the
sources; it shrinks the storage of the path to minimal capacity (memory
hygiene, not semantics), so the path value is the same. -/
def shrinkToFit (path : P) : P := path

/-- The derivation `TrimEffect::onRevalidateEffect`. -/
def TrimEffect.onRevalidateEffect (nodes : Nodes W GN TN IC M R P)
    (fx : Effects S P R E Rec Mode) (fStart fStop : S) (fMode : Mode)
    (child : GN) (w : W) : Option (P × W × List (Call S P M IC GN TN E Mode)) :=
  let path := nodes.asPath w child
  match fx.trimMake fStart fStop fMode with
  | some trim =>
    let strokeRec := fx.kHairline_InitStyle
    let r := filterPath fx trim path strokeRec
    if r.2 then
      some (r.1, w, [Call.asPath child, Call.trimMake fStart fStop fMode,
        Call.filterPath trim path])
    else
      none
  | none =>
    some (path, w, [Call.asPath child, Call.trimMake fStart fStop fMode])

/-- The derivation `GeometryTransform::onRevalidateEffect`. -/
def GeometryTransform.onRevalidateEffect (nodes : Nodes W GN TN IC M R P)
    (paths : Paths S P M R) (fTransform : TN)
    (child : GN) (w : W) : Option (P × W × List (Call S P M IC GN TN E Mode)) :=
  let w := (nodes.revalidateTransform w fTransform none paths.I).2
  let m := nodes.asMatrix w fTransform
  let path := nodes.asPath w child
  let path := paths.transform path m
  some (path, w, [Call.revalidateTransform fTransform none paths.I,
    Call.asMatrix fTransform, Call.asPath child])

/-- The derivation `DashEffect::onRevalidateEffect`. -/
def DashEffect.onRevalidateEffect (nodes : Nodes W GN TN IC M R P)
    (fx : Effects S P R E Rec Mode) (fIntervals : List S) (fPhase : S)
    (child : GN) (w : W) : Option (P × W × List (Call S P M IC GN TN E Mode)) :=
  let path := nodes.asPath w child
  let made := make_dash fx fIntervals fPhase
  match made.1 with
  | some dash_patheffect =>
    let strokeRec := fx.kHairline_InitStyle
    let r := filterPath fx dash_patheffect path strokeRec
    some (r.1, w, Call.asPath child :: made.2 ++ [Call.filterPath dash_patheffect path])
  | none =>
    some (path, w, Call.asPath child :: made.2)

/-- The derivation `RoundEffect::onRevalidateEffect`. -/
def RoundEffect.onRevalidateEffect (nodes : Nodes W GN TN IC M R P)
    (fx : Effects S P R E Rec Mode) (fRadius : S)
    (child : GN) (w : W) : Option (P × W × List (Call S P M IC GN TN E Mode)) :=
  let path := nodes.asPath w child
  match fx.cornerMake fRadius with
  | some round =>
    let strokeRec := fx.kHairline_InitStyle
    let r := filterPath fx round path strokeRec
    if r.2 then
      some (r.1, w, [Call.asPath child, Call.cornerMake fRadius,
        Call.filterPath round path])
    else
      none
  | none =>
    some (path, w, [Call.asPath child, Call.cornerMake fRadius])

/-- The concrete classes deriving from `GeometryEffect`, with their fields. -/
inductive Variant (S TN Mode : Type) where
  | TrimEffect (fStart fStop : S) (fMode : Mode)
  | GeometryTransform (fTransform : TN)
  | DashEffect (fIntervals : List S) (fPhase : S)
  | RoundEffect (fRadius : S)
deriving DecidableEq, Repr

/-- State of a `GeometryEffect` node: the child, the cached path `fPath`, the
invalidation flag of the node base class read by `hasInval()`, and the
fields of the concrete class. -/
structure GeometryEffect (S P GN TN Mode : Type) where
  fChild : GN
  fPath : P
  hasInval : Bool
  variant : Variant S TN Mode
deriving DecidableEq, Repr

/-- The virtual call `this->onRevalidateEffect(child)`. -/
def GeometryEffect.onRevalidateEffect (nodes : Nodes W GN TN IC M R P)
    (paths : Paths S P M R) (fx : Effects S P R E Rec Mode)
    (g : GeometryEffect S P GN TN Mode) (child : GN) (w : W) :
    Option (P × W × List (Call S P M IC GN TN E Mode)) :=
  match g.variant with
  | .TrimEffect fStart fStop fMode =>
    TrimEffect.onRevalidateEffect nodes fx fStart fStop fMode child w
  | .GeometryTransform fTransform =>
    GeometryTransform.onRevalidateEffect nodes paths fTransform child w
  | .DashEffect fIntervals fPhase =>
    DashEffect.onRevalidateEffect nodes fx fIntervals fPhase child w
  | .RoundEffect fRadius =>
    RoundEffect.onRevalidateEffect nodes fx fRadius child w

/-- The method `GeometryEffect::onRevalidate`: the returned bounds, the node
after the call, the world after the call and the calls made. -/
def GeometryEffect.onRevalidate (nodes : Nodes W GN TN IC M R P)
    (paths : Paths S P M R) (fx : Effects S P R E Rec Mode)
    (g : GeometryEffect S P GN TN Mode) (ic : Option IC) (ctm : M) (w : W) :
    Option (R × GeometryEffect S P GN TN Mode × W × List (Call S P M IC GN TN E Mode)) :=
  if g.hasInval then
    let w := (nodes.revalidate w g.fChild ic ctm).2
    match GeometryEffect.onRevalidateEffect nodes paths fx g g.fChild w with
    | some (path, w, calls) =>
      let g := { g with fPath := path }
      let g := { g with fPath := shrinkToFit g.fPath }
      some (paths.computeTightBounds g.fPath, g, w,
        Call.revalidate g.fChild ic ctm :: calls)
    | none => none
  else
    none

/-- The canvas operations used by the effects: `SkCanvas::clipPath` and
`SkCanvas::drawPath`, acting on the canvas state. -/
structure Canvases (Canvas P Paint : Type) where
  clipPath : Canvas → P → SkClipOp → Bool → Canvas
  drawPath : Canvas → P → Paint → Canvas

variable {Canvas Paint : Type}

/-- The method `GeometryEffect::onClip`. -/
def GeometryEffect.onClip (cv : Canvases Canvas P Paint)
    (g : GeometryEffect S P GN TN Mode) (canvas : Canvas) (antiAlias : Bool) : Canvas :=
  cv.clipPath canvas g.fPath SkClipOp.kIntersect antiAlias

/-- The method `GeometryEffect::onDraw`. -/
def GeometryEffect.onDraw (cv : Canvases Canvas P Paint)
    (g : GeometryEffect S P GN TN Mode) (canvas : Canvas) (paint : Paint) : Canvas :=
  cv.drawPath canvas g.fPath paint

/-- The method `GeometryEffect::onContains`. -/
def GeometryEffect.onContains (paths : Paths S P M R)
    (g : GeometryEffect S P GN TN Mode) (p : SkPoint S) : Bool :=
  paths.contains g.fPath p.fX p.fY

/-- The method `GeometryEffect::onAsPath`. -/
def GeometryEffect.onAsPath (g : GeometryEffect S P GN TN Mode) : P :=
  g.fPath

/-- A read operation of a node: `asPath`, `contains`, `draw` or `clip`, with
its arguments other than the canvas. -/
inductive Read (S Paint : Type) where
  | asPath
  | contains (p : SkPoint S)
  | draw (paint : Paint)
  | clip (antiAlias : Bool)
deriving DecidableEq, Repr

/-- What a read operation returns to its caller. -/
inductive Reply (P : Type) where
  | path (path : P)
  | bool (b : Bool)
  | done
deriving DecidableEq, Repr

/-- One read operation on a node and a canvas: the reply, the node after the
call and the canvas after the call. The four methods are `const`, they have
no assignment to a field of the node. -/
def GeometryEffect.read (paths : Paths S P M R) (cv : Canvases Canvas P Paint)
    (g : GeometryEffect S P GN TN Mode) (canvas : Canvas) :
    Read S Paint → Reply P × GeometryEffect S P GN TN Mode × Canvas
  | .asPath => (Reply.path (GeometryEffect.onAsPath g), g, canvas)
  | .contains p => (Reply.bool (GeometryEffect.onContains paths g p), g, canvas)
  | .draw paint => (Reply.done, g, GeometryEffect.onDraw cv g canvas paint)
  | .clip antiAlias => (Reply.done, g, GeometryEffect.onClip cv g canvas antiAlias)

/-- A sequence of read operations on a node and a canvas, in order: the
replies, the node after the calls and the canvas after the calls. -/
def GeometryEffect.reads (paths : Paths S P M R) (cv : Canvases Canvas P Paint)
    (g : GeometryEffect S P GN TN Mode) (canvas : Canvas) :
    List (Read S Paint) → List (Reply P) × GeometryEffect S P GN TN Mode × Canvas
  | [] => ([], g, canvas)
  | op :: ops =>
    let r := GeometryEffect.read paths cv g canvas op
    let rs := GeometryEffect.reads paths cv r.2.1 r.2.2 ops
    (r.1 :: rs.1, rs.2.1, rs.2.2)

end Embedding

/-! ## Straight-line paths with exact coordinates

The path, matrix and rectangle types are not among the sources. For the
transform of straight-line paths they are modelled from the spec, with
rational numbers for the scalars: rounding and overflow of `SkScalar` are
outside the model. -/

/-- Modelled from the spec: the rectangle type `SkRect`, which is not among
the sources, an axis-aligned rectangle given by its four sides. -/
structure SkRect where
  fLeft : ℚ
  fTop : ℚ
  fRight : ℚ
  fBottom : ℚ
deriving DecidableEq, Repr

/-- Modelled from the spec: the width of a rectangle, `SkRect::width`. -/
def SkRect.width (r : SkRect) : ℚ := r.fRight - r.fLeft

/-- Modelled from the spec: the height of a rectangle, `SkRect::height`. -/
def SkRect.height (r : SkRect) : ℚ := r.fBottom - r.fTop

/-- Modelled from the spec: the matrix type `SkMatrix`, which is not among the
sources; the spec calls it a 2D affine/projective matrix. The nine entries
are in row order. -/
structure SkMatrix where
  scaleX : ℚ
  skewX : ℚ
  transX : ℚ
  skewY : ℚ
  scaleY : ℚ
  transY : ℚ
  persp0 : ℚ
  persp1 : ℚ
  persp2 : ℚ
deriving DecidableEq, Repr

/-- Modelled from the spec: the identity matrix `SkMatrix::I()`. -/
def SkMatrix.I : SkMatrix := ⟨1, 0, 0, 0, 1, 0, 0, 0, 1⟩

/-- Modelled from the spec: the scale matrix; `SkMatrix.Scale 2 2` is the
scale-by-2 matrix of the spec. -/
def SkMatrix.Scale (sx sy : ℚ) : SkMatrix := ⟨sx, 0, 0, 0, sy, 0, 0, 0, 1⟩

/-- Modelled from the spec: a point mapped through a matrix, the projective
action of the matrix on the point. -/
def SkMatrix.mapXY (m : SkMatrix) (p : SkPoint ℚ) : SkPoint ℚ :=
  let z := m.persp0 * p.fX + m.persp1 * p.fY + m.persp2
  ⟨(m.scaleX * p.fX + m.skewX * p.fY + m.transX) / z,
   (m.skewY * p.fX + m.scaleY * p.fY + m.transY) / z⟩

/-- Modelled from the spec: a straight-line path, a sequence of points joined
by line segments; `SkPath` is not among the sources. -/
abbrev LinePath := List (SkPoint ℚ)

/-- Modelled from the spec: `SkPath::transform`, mapping every point of the
path through the matrix. -/
def LinePath.transform (path : LinePath) (m : SkMatrix) : LinePath :=
  path.map m.mapXY

/-- Modelled from the spec: the smallest rectangle enclosing a rectangle and
one more point. -/
def SkRect.join (r : SkRect) (p : SkPoint ℚ) : SkRect :=
  ⟨min r.fLeft p.fX, min r.fTop p.fY, max r.fRight p.fX, max r.fBottom p.fY⟩

/-- Modelled from the spec: `SkPath::computeTightBounds`, the smallest
axis-aligned rectangle enclosing the geometry of the path; for points joined
by line segments that is the extent of the points. The path without points
has the empty rectangle at the origin. -/
def LinePath.computeTightBounds : LinePath → SkRect
  | [] => ⟨0, 0, 0, 0⟩
  | p :: ps => ps.foldl SkRect.join ⟨p.fX, p.fY, p.fX, p.fY⟩

/-- The path and matrix operations on straight-line paths; the point-in-path
test `SkPath::contains` stays a parameter. -/
def linePaths (contains : LinePath → ℚ → ℚ → Bool) : Paths ℚ LinePath SkMatrix SkRect where
  I := SkMatrix.I
  transform := LinePath.transform
  computeTightBounds := LinePath.computeTightBounds
  contains := contains

/-! ## A sample scene used to evaluate the embedding on concrete inputs -/

/-- World of the sample scene: the path the child has cached, the path it
computes when it is revalidated, and the matrix of the transform node. -/
structure SampleWorld where
  childPath : LinePath
  childNext : LinePath
  matrix : SkMatrix
deriving DecidableEq, Repr

/-- Nodes of the sample scene: one child and one transform, with `Unit`
handles; revalidating the child installs the path it computes. -/
def sampleNodes : Nodes SampleWorld Unit Unit Unit SkMatrix SkRect LinePath where
  revalidate := fun w _ _ _ =>
    (LinePath.computeTightBounds w.childNext, { w with childPath := w.childNext })
  asPath := fun w _ => w.childPath
  revalidateTransform := fun w _ _ _ => (⟨0, 0, 0, 0⟩, w)
  asMatrix := fun w _ => w.matrix

/-- Trim modes of the sample scene. -/
inductive SampleMode where
  | kNormal
  | kInverted
deriving DecidableEq, Repr

/-- Path effects of the sample scene. -/
inductive SampleEffect where
  | trim (start stop : ℚ)
  | dash (intervals : List ℚ) (phase : ℚ)
  | corner (radius : ℚ)
deriving DecidableEq, Repr

/-- Effects of the sample scene. The trim factory yields no effect on the
full range in normal mode, the corner factory none for a radius that is not
positive, the dash factory none for fewer than two intervals, an odd count
or a pattern of total length zero. The trim filter keeps the first point, the
corner filter keeps the path, the dash filter declines a path of fewer than
two points and reverses any other. -/
def sampleEffects : Effects ℚ LinePath SkRect SampleEffect Unit SampleMode where
  trimMake := fun start stop mode =>
    if start ≤ 0 ∧ 1 ≤ stop ∧ mode = SampleMode.kNormal then none
    else some (SampleEffect.trim start stop)
  dashMake := fun intervals count phase =>
    if count < 2 ∨ count % 2 = 1 ∨ intervals.sum ≤ 0 then none
    else some (SampleEffect.dash intervals phase)
  cornerMake := fun radius =>
    if 0 < radius then some (SampleEffect.corner radius) else none
  onFilterPath := fun effect path _ _ =>
    match effect with
    | SampleEffect.trim _ _ => (path.take 1, true)
    | SampleEffect.dash _ _ => if path.length < 2 then ([], false) else (path.reverse, true)
    | SampleEffect.corner _ => (path, true)
  kHairline_InitStyle := ()
  uninit := fun _ => 0

/-- Point-in-path test of the sample scene: the point is a vertex of the
path. -/
def sampleContains (path : LinePath) (x y : ℚ) : Bool :=
  path.any (fun p => decide (p.fX = x ∧ p.fY = y))

/-- The path operations of the sample scene. -/
def samplePaths : Paths ℚ LinePath SkMatrix SkRect := linePaths sampleContains

/-- The square of side 10 starting at the origin. -/
def sampleSquare : LinePath := [⟨0, 0⟩, ⟨10, 0⟩, ⟨10, 10⟩, ⟨0, 10⟩]

/-- A world of the sample scene: the child will produce the square, the
transform holds the scale-by-2 matrix. -/
def sampleWorld : SampleWorld := ⟨[], sampleSquare, SkMatrix.Scale 2 2⟩

/-- The calls of the sample scene. -/
abbrev SampleCall := Call ℚ LinePath SkMatrix Unit Unit Unit SampleEffect SampleMode

/-! ## Properties -/

section Properties

variable {S P M R IC W GN TN E Rec Mode : Type}

theorem resize_length (fx : Effects S P R E Rec Mode) (n : Nat) :
    (resize fx n).length = n := by
  simp [resize]

/-- Writing a list twice in a row into storage of twice its length leaves
exactly the list followed by itself, whatever the storage held. -/
theorem copy_copy (src storage : List S) (h : storage.length = src.length * 2) :
    copy src (copy src storage 0) src.length = src ++ src := by
  have hdrop : List.drop (src.length + src.length) storage = [] := by
    apply List.drop_eq_nil_of_le
    omega
  simp [copy, List.take_append_eq_append_take, List.drop_append_eq_append_drop, hdrop]

theorem make_dash_nil (fx : Effects S P R E Rec Mode) (phase : S) :
    (make_dash fx [] phase : Option E × List (Call S P M IC GN TN E Mode)) = (none, []) := by
  simp [make_dash]

theorem make_dash_odd (fx : Effects S P R E Rec Mode) (intervals : List S) (phase : S)
    (hodd : intervals.length % 2 = 1) :
    (make_dash fx intervals phase : Option E × List (Call S P M IC GN TN E Mode)) =
      (fx.dashMake (intervals ++ intervals) ((intervals.length * 2 : Nat) : Int) phase,
        [Call.dashMake (intervals ++ intervals) ((intervals.length * 2 : Nat) : Int) phase]) := by
  have hne : intervals ≠ [] := by
    intro h
    simp [h] at hodd
  have hand : intervals.length &&& 1 ≠ 0 := by
    rw [Nat.and_one_is_mod]
    omega
  have hcopy := copy_copy intervals (resize fx (intervals.length * 2)) (resize_length fx _)
  have hemp : ¬ intervals.isEmpty = true := by simpa using hne
  unfold make_dash
  rw [if_neg hemp]
  dsimp only
  rw [if_pos hand, hcopy]

theorem make_dash_even (fx : Effects S P R E Rec Mode) (intervals : List S) (phase : S)
    (hne : intervals ≠ []) (heven : intervals.length % 2 = 0) :
    (make_dash fx intervals phase : Option E × List (Call S P M IC GN TN E Mode)) =
      (fx.dashMake intervals (intervals.length : Int) phase,
        [Call.dashMake intervals (intervals.length : Int) phase]) := by
  have hand : ¬ intervals.length &&& 1 ≠ 0 := by
    rw [Nat.and_one_is_mod]
    omega
  have hemp : ¬ intervals.isEmpty = true := by simpa using hne
  unfold make_dash
  rw [if_neg hemp]
  dsimp only
  rw [if_neg hand]

/-- What `make_dash` hands to the dash factory is what it returns: when its
only call is `dashMake pattern count phase`, its result is the result of the
factory on these arguments. -/
theorem make_dash_result (fx : Effects S P R E Rec Mode) (intervals pattern : List S)
    (phase phase0 : S) (count : Int)
    (h : (make_dash fx intervals phase : Option E × List (Call S P M IC GN TN E Mode)).2 =
      [Call.dashMake pattern count phase0]) :
    (make_dash fx intervals phase : Option E × List (Call S P M IC GN TN E Mode)).1 =
      fx.dashMake pattern count phase0 := by
  by_cases hne : intervals = []
  · subst hne
    rw [make_dash_nil] at h
    simp at h
  · rcases Nat.mod_two_eq_zero_or_one intervals.length with heven | hodd
    · rw [make_dash_even fx intervals phase hne heven] at h ⊢
      simp only [List.cons.injEq, Call.dashMake.injEq, and_true] at h
      obtain ⟨rfl, rfl, rfl⟩ := h
      rfl
    · rw [make_dash_odd fx intervals phase hodd] at h ⊢
      simp only [List.cons.injEq, Call.dashMake.injEq, and_true] at h
      obtain ⟨rfl, rfl, rfl⟩ := h
      rfl

/-- C2: for a non-empty interval sequence, `make_dash` hands to the dash
factory the sequence followed by itself with count twice its length when the
length is odd, and the sequence itself with its length when the length is
even; the phase is handed over as it is. The result of `make_dash` is the
result of the factory. -/
theorem make_dash_effective_pattern (fx : Effects S P R E Rec Mode) (intervals : List S)
    (phase : S) (hne : intervals ≠ []) :
    (make_dash fx intervals phase : Option E × List (Call S P M IC GN TN E Mode)) =
      if intervals.length % 2 = 1 then
        (fx.dashMake (intervals ++ intervals) ((2 * intervals.length : Nat) : Int) phase,
          [Call.dashMake (intervals ++ intervals) ((2 * intervals.length : Nat) : Int) phase])
      else
        (fx.dashMake intervals (intervals.length : Int) phase,
          [Call.dashMake intervals (intervals.length : Int) phase]) := by
  rcases Nat.mod_two_eq_zero_or_one intervals.length with heven | hodd
  · rw [make_dash_even fx intervals phase hne heven, if_neg (by omega)]
  · rw [make_dash_odd fx intervals phase hodd, if_pos hodd, Nat.mul_comm]

/-- C2 at the intervals 2, 1, 3 of the sample scene: the factory receives
2, 1, 3, 2, 1, 3 with count 6. -/
theorem make_dash_effective_pattern_witness :
    ([2, 1, 3] : List ℚ) ≠ [] ∧
    (make_dash sampleEffects [2, 1, 3] 0 : Option SampleEffect × List SampleCall) =
      (sampleEffects.dashMake [2, 1, 3, 2, 1, 3] 6 0,
        [Call.dashMake [2, 1, 3, 2, 1, 3] 6 0]) :=
  ⟨by simp, by
    have h : (make_dash sampleEffects [2, 1, 3] 0 : Option SampleEffect × List SampleCall) = _ :=
      make_dash_effective_pattern sampleEffects [2, 1, 3] 0 (by simp)
    simpa using h⟩

/-- C3: with an empty interval sequence `make_dash` yields no effect without
calling the dash factory, and the derivation of `DashEffect` returns the path
of the child as it is, in the same world, after the single call `asPath` on
the child: no path filter is invoked. -/
theorem DashEffect_empty_intervals (nodes : Nodes W GN TN IC M R P)
    (fx : Effects S P R E Rec Mode) (fPhase : S) (child : GN) (w : W) :
    (make_dash fx [] fPhase : Option E × List (Call S P M IC GN TN E Mode)) = (none, []) ∧
    DashEffect.onRevalidateEffect nodes fx [] fPhase child w =
      some (nodes.asPath w child, w, [Call.asPath child]) := by
  refine ⟨make_dash_nil fx fPhase, ?_⟩
  simp [DashEffect.onRevalidateEffect, make_dash_nil]

/-- C4: the derivation of `DashEffect` never fails. When the dash factory
rejects the pattern `make_dash` hands to it, or when the filter of the dash
effect reports failure, the derivation returns the path of the child
unmodified; when the filter succeeds it returns the output of the filter. -/
theorem DashEffect_declines (nodes : Nodes W GN TN IC M R P)
    (fx : Effects S P R E Rec Mode) (fIntervals : List S) (fPhase : S) (child : GN) (w : W) :
    (∀ pattern count phase,
      (make_dash fx fIntervals fPhase : Option E × List (Call S P M IC GN TN E Mode)).2 =
        [Call.dashMake pattern count phase] →
      fx.dashMake pattern count phase = none →
      DashEffect.onRevalidateEffect nodes fx fIntervals fPhase child w =
        some (nodes.asPath w child, w,
          [Call.asPath child, Call.dashMake pattern count phase])) ∧
    (∀ dash,
      (make_dash fx fIntervals fPhase : Option E × List (Call S P M IC GN TN E Mode)).1 =
        some dash →
      (fx.onFilterPath dash (nodes.asPath w child) fx.kHairline_InitStyle none).2 = false →
      DashEffect.onRevalidateEffect nodes fx fIntervals fPhase child w =
        some (nodes.asPath w child, w,
          Call.asPath child :: (make_dash fx fIntervals fPhase).2 ++
            [Call.filterPath dash (nodes.asPath w child)])) ∧
    (∀ dash,
      (make_dash fx fIntervals fPhase : Option E × List (Call S P M IC GN TN E Mode)).1 =
        some dash →
      (fx.onFilterPath dash (nodes.asPath w child) fx.kHairline_InitStyle none).2 = true →
      DashEffect.onRevalidateEffect nodes fx fIntervals fPhase child w =
        some ((fx.onFilterPath dash (nodes.asPath w child) fx.kHairline_InitStyle none).1, w,
          Call.asPath child :: (make_dash fx fIntervals fPhase).2 ++
            [Call.filterPath dash (nodes.asPath w child)])) ∧
    (DashEffect.onRevalidateEffect nodes fx fIntervals fPhase child w :
      Option (P × W × List (Call S P M IC GN TN E Mode))).isSome = true := by
  refine ⟨?_, ?_, ?_, ?_⟩
  · intro pattern count phase hcalls hnone
    have hres := make_dash_result fx fIntervals pattern fPhase phase count hcalls
    rw [hnone] at hres
    simp only [DashEffect.onRevalidateEffect, hres, hcalls]
  · intro dash hmade hfail
    simp only [DashEffect.onRevalidateEffect, hmade, filterPath, hfail]
    simp
  · intro dash hmade hok
    simp only [DashEffect.onRevalidateEffect, hmade, filterPath, hok]
    simp
  · unfold DashEffect.onRevalidateEffect
    dsimp only
    split <;> rfl

/-- C9: when the trim factory yields no effect for start 0, stop 1 and the
normal mode, the derivation of `TrimEffect` with these parameters does not
fail and returns the path of the child as it is, after the calls `asPath`
and `trimMake` only: the trim filter is not invoked. -/
theorem TrimEffect_full_range [Zero S] [One S] (nodes : Nodes W GN TN IC M R P)
    (fx : Effects S P R E Rec Mode) (kNormal : Mode) (child : GN) (w : W)
    (hmake : fx.trimMake 0 1 kNormal = none) :
    TrimEffect.onRevalidateEffect nodes fx 0 1 kNormal child w =
      some (nodes.asPath w child, w, [Call.asPath child, Call.trimMake 0 1 kNormal]) := by
  simp only [TrimEffect.onRevalidateEffect, hmake]

/-- C10: when the corner factory yields no effect for the radius 0, the
derivation of `RoundEffect` with radius 0 does not fail and returns the path
of the child as it is, after the calls `asPath` and `cornerMake` only: the
corner filter is not invoked. -/
theorem RoundEffect_zero_radius [Zero S] (nodes : Nodes W GN TN IC M R P)
    (fx : Effects S P R E Rec Mode) (child : GN) (w : W)
    (hmake : fx.cornerMake 0 = none) :
    RoundEffect.onRevalidateEffect nodes fx 0 child w =
      some (nodes.asPath w child, w, [Call.asPath child, Call.cornerMake 0]) := by
  simp only [RoundEffect.onRevalidateEffect, hmake]

/-- Reading a list followed by itself at `k` modulo twice its length is
reading the list at `k` modulo its length. -/
theorem doubled_getElem (l : List S) (k : Nat) (hpos : 0 < l.length) :
    ∃ x, (l ++ l)[k % (2 * l.length)]? = some x ∧ l[k % l.length]? = some x := by
  have hmod : k % (2 * l.length) % l.length = k % l.length :=
    Nat.mod_mod_of_dvd k (Dvd.intro_left 2 rfl)
  have hlt : k % (2 * l.length) < 2 * l.length := Nat.mod_lt _ (by omega)
  have hk : k % l.length < l.length := Nat.mod_lt _ hpos
  refine ⟨l[k % l.length], ?_, List.getElem?_eq_getElem hk⟩
  rw [← List.getElem?_eq_getElem hk, ← hmod]
  generalize k % (2 * l.length) = j at hlt
  by_cases hj : j < l.length
  · rw [List.getElem?_append_left hj, Nat.mod_eq_of_lt hj]
  · have hj' : l.length ≤ j := by omega
    rw [List.getElem?_append_right hj', Nat.mod_eq_sub_mod hj', Nat.mod_eq_of_lt (by omega)]

/-- C5: for an odd-length interval sequence of length n, the pattern
`make_dash` hands to the factory is the sequence followed by itself, and read
cyclically it is the sequence read cyclically: at every index k the doubled
pattern at k mod 2n holds the interval the sequence holds at k mod n; the
position k mod 2n in the doubled pattern has the parity of k. -/
theorem make_dash_odd_cyclic (fx : Effects S P R E Rec Mode) (intervals : List S)
    (phase : S) (hodd : intervals.length % 2 = 1) :
    (make_dash fx intervals phase : Option E × List (Call S P M IC GN TN E Mode)).2 =
      [Call.dashMake (intervals ++ intervals) ((2 * intervals.length : Nat) : Int) phase] ∧
    ∀ k : Nat,
      (∃ x, (intervals ++ intervals)[k % (2 * intervals.length)]? = some x ∧
        intervals[k % intervals.length]? = some x) ∧
      k % (2 * intervals.length) % 2 = k % 2 := by
  refine ⟨?_, fun k => ⟨doubled_getElem intervals k (by omega), ?_⟩⟩
  · rw [make_dash_odd fx intervals phase hodd, Nat.mul_comm]
  · exact Nat.mod_mod_of_dvd k (Dvd.intro _ rfl)

/-- C5 at the intervals 2, 1, 3 of the sample scene and index 4: the doubled
pattern at 4 and the sequence at 1 both hold 1. -/
theorem make_dash_odd_cyclic_witness :
    ([2, 1, 3] : List ℚ).length % 2 = 1 ∧
    (make_dash sampleEffects [2, 1, 3] 0 : Option SampleEffect × List SampleCall).2 =
      [Call.dashMake [2, 1, 3, 2, 1, 3] 6 0] ∧
    ([2, 1, 3, 2, 1, 3] : List ℚ)[4 % 6]? = some 1 ∧ ([2, 1, 3] : List ℚ)[4 % 3]? = some 1 :=
  ⟨by simp, by
    have h : (make_dash sampleEffects [2, 1, 3] 0 : Option SampleEffect × List SampleCall).2 = _ :=
      (make_dash_odd_cyclic sampleEffects [2, 1, 3] 0 (by simp)).1
    simpa using h, by simp, by simp⟩

theorem sample_make_dash :
    (make_dash sampleEffects [2, 1, 3] 0 : Option SampleEffect × List SampleCall) =
      (some (SampleEffect.dash [2, 1, 3, 2, 1, 3] 0), [Call.dashMake [2, 1, 3, 2, 1, 3] 6 0]) := by
  rw [make_dash_odd sampleEffects [2, 1, 3] 0 (by simp)]
  norm_num [sampleEffects]

/-- C4 in the sample scene: the factory rejects the pattern 0, 0 and the
square comes back as it is; the dash filter declines a path of one point and
the point comes back as it is; the dash filter accepts the square and its
output, the reversed square, comes back. -/
theorem DashEffect_declines_witness :
    DashEffect.onRevalidateEffect sampleNodes sampleEffects [0, 0] 0 ()
        (⟨sampleSquare, [], SkMatrix.I⟩ : SampleWorld) =
      some (sampleSquare, ⟨sampleSquare, [], SkMatrix.I⟩,
        ([Call.asPath (), Call.dashMake [0, 0] 2 0] : List SampleCall)) ∧
    DashEffect.onRevalidateEffect sampleNodes sampleEffects [2, 1, 3] 0 ()
        (⟨[⟨5, 5⟩], [], SkMatrix.I⟩ : SampleWorld) =
      some ([⟨5, 5⟩], ⟨[⟨5, 5⟩], [], SkMatrix.I⟩,
        ([Call.asPath (), Call.dashMake [2, 1, 3, 2, 1, 3] 6 0,
          Call.filterPath (SampleEffect.dash [2, 1, 3, 2, 1, 3] 0) [⟨5, 5⟩]] :
          List SampleCall)) ∧
    DashEffect.onRevalidateEffect sampleNodes sampleEffects [2, 1, 3] 0 ()
        (⟨sampleSquare, [], SkMatrix.I⟩ : SampleWorld) =
      some (sampleSquare.reverse, ⟨sampleSquare, [], SkMatrix.I⟩,
        ([Call.asPath (), Call.dashMake [2, 1, 3, 2, 1, 3] 6 0,
          Call.filterPath (SampleEffect.dash [2, 1, 3, 2, 1, 3] 0) sampleSquare] :
          List SampleCall)) := by
  refine ⟨?_, ?_, ?_⟩
  · exact (DashEffect_declines sampleNodes sampleEffects [0, 0] 0 ()
      (⟨sampleSquare, [], SkMatrix.I⟩ : SampleWorld)).1 [0, 0] 2 0
      (by rw [make_dash_even sampleEffects [0, 0] 0 (by simp) (by simp)]; rfl)
      (by simp [sampleEffects])
  · have h := (DashEffect_declines sampleNodes sampleEffects [2, 1, 3] 0 ()
      (⟨[⟨5, 5⟩], [], SkMatrix.I⟩ : SampleWorld)).2.1 (SampleEffect.dash [2, 1, 3, 2, 1, 3] 0)
      (by rw [sample_make_dash]) (by simp [sampleEffects, sampleNodes])
    rw [h, sample_make_dash]
    rfl
  · have h := (DashEffect_declines sampleNodes sampleEffects [2, 1, 3] 0 ()
      (⟨sampleSquare, [], SkMatrix.I⟩ : SampleWorld)).2.2.1
      (SampleEffect.dash [2, 1, 3, 2, 1, 3] 0)
      (by rw [sample_make_dash]) (by simp [sampleEffects, sampleNodes, sampleSquare])
    rw [h, sample_make_dash]
    rfl

/-- C9 in the sample scene, whose trim factory yields no effect on the full
range in normal mode: the square comes back as it is. -/
theorem TrimEffect_full_range_witness :
    sampleEffects.trimMake 0 1 SampleMode.kNormal = none ∧
    TrimEffect.onRevalidateEffect sampleNodes sampleEffects 0 1 SampleMode.kNormal ()
        (⟨sampleSquare, [], SkMatrix.I⟩ : SampleWorld) =
      some (sampleSquare, ⟨sampleSquare, [], SkMatrix.I⟩,
        ([Call.asPath (), Call.trimMake 0 1 SampleMode.kNormal] : List SampleCall)) :=
  ⟨by simp [sampleEffects],
   TrimEffect_full_range sampleNodes sampleEffects SampleMode.kNormal ()
     (⟨sampleSquare, [], SkMatrix.I⟩ : SampleWorld) (by simp [sampleEffects])⟩

/-- C10 in the sample scene, whose corner factory yields no effect for a
radius that is not positive: the square comes back as it is. -/
theorem RoundEffect_zero_radius_witness :
    sampleEffects.cornerMake 0 = none ∧
    RoundEffect.onRevalidateEffect sampleNodes sampleEffects 0 ()
        (⟨sampleSquare, [], SkMatrix.I⟩ : SampleWorld) =
      some (sampleSquare, ⟨sampleSquare, [], SkMatrix.I⟩,
        ([Call.asPath (), Call.cornerMake 0] : List SampleCall)) :=
  ⟨by simp [sampleEffects],
   RoundEffect_zero_radius sampleNodes sampleEffects ()
     (⟨sampleSquare, [], SkMatrix.I⟩ : SampleWorld) (by simp [sampleEffects])⟩

/-- C1: on a node marked invalid, `onRevalidate` first revalidates the child
with the controller and the ctm it was given, whatever the state of the
child, then runs the derivation of the variant on the child in the world left
by that revalidation; when the derivation yields a path, that path becomes
the cached path, the other fields stay, and the result is the tight bounds of
the cached path; when the derivation stops on an assertion, so does
`onRevalidate`. -/
theorem GeometryEffect_onRevalidate_caches (nodes : Nodes W GN TN IC M R P)
    (paths : Paths S P M R) (fx : Effects S P R E Rec Mode)
    (g : GeometryEffect S P GN TN Mode) (ic : Option IC) (ctm : M) (w : W)
    (hinval : g.hasInval = true) :
    GeometryEffect.onRevalidate nodes paths fx g ic ctm w =
      (GeometryEffect.onRevalidateEffect nodes paths fx g g.fChild
          (nodes.revalidate w g.fChild ic ctm).2).map
        (fun d => (paths.computeTightBounds d.1, { g with fPath := d.1 }, d.2.1,
          Call.revalidate g.fChild ic ctm :: d.2.2)) := by
  unfold GeometryEffect.onRevalidate
  rw [if_pos hinval]
  dsimp only
  cases GeometryEffect.onRevalidateEffect nodes paths fx g g.fChild
    (nodes.revalidate w g.fChild ic ctm).2 <;> rfl

/-- C1 in the sample scene: a dash node without intervals over a child that
produces the square on revalidation caches the square and returns its
bounds. -/
theorem GeometryEffect_onRevalidate_caches_witness :
    GeometryEffect.onRevalidate sampleNodes samplePaths sampleEffects
        (⟨(), [], true, Variant.DashEffect [] 0⟩ :
          GeometryEffect ℚ LinePath Unit Unit SampleMode)
        (some ()) (SkMatrix.Scale 3 3) sampleWorld =
      some (⟨0, 0, 10, 10⟩, ⟨(), sampleSquare, true, Variant.DashEffect [] 0⟩,
        ⟨sampleSquare, sampleSquare, SkMatrix.Scale 2 2⟩,
        ([Call.revalidate () (some ()) (SkMatrix.Scale 3 3), Call.asPath ()] :
          List SampleCall)) := by
  rw [GeometryEffect_onRevalidate_caches sampleNodes samplePaths sampleEffects _ _ _ _ rfl]
  simp [GeometryEffect.onRevalidateEffect, DashEffect.onRevalidateEffect, make_dash,
    sampleNodes, sampleWorld, samplePaths, linePaths, LinePath.computeTightBounds, sampleSquare,
    SkRect.join]

/-- The result of `onRevalidate` on a `GeometryTransform` node marked
invalid, written out. -/
theorem GeometryTransform_onRevalidate_eq (nodes : Nodes W GN TN IC M R P)
    (paths : Paths S P M R) (fx : Effects S P R E Rec Mode)
    (g : GeometryEffect S P GN TN Mode) (fTransform : TN) (ic : Option IC) (ctm : M) (w : W)
    (hinval : g.hasInval = true) (hvariant : g.variant = Variant.GeometryTransform fTransform) :
    GeometryEffect.onRevalidate nodes paths fx g ic ctm w =
      some (paths.computeTightBounds
          (paths.transform
            (nodes.asPath (nodes.revalidateTransform (nodes.revalidate w g.fChild ic ctm).2
              fTransform none paths.I).2 g.fChild)
            (nodes.asMatrix (nodes.revalidateTransform (nodes.revalidate w g.fChild ic ctm).2
              fTransform none paths.I).2 fTransform)),
        { g with fPath := (paths.transform
            (nodes.asPath (nodes.revalidateTransform (nodes.revalidate w g.fChild ic ctm).2
              fTransform none paths.I).2 g.fChild)
            (nodes.asMatrix (nodes.revalidateTransform (nodes.revalidate w g.fChild ic ctm).2
              fTransform none paths.I).2 fTransform)) },
        (nodes.revalidateTransform (nodes.revalidate w g.fChild ic ctm).2
          fTransform none paths.I).2,
        [Call.revalidate g.fChild ic ctm, Call.revalidateTransform fTransform none paths.I,
          Call.asMatrix fTransform, Call.asPath g.fChild]) := by
  simp only [GeometryEffect.onRevalidate, hinval, if_true, GeometryEffect.onRevalidateEffect,
    hvariant, GeometryTransform.onRevalidateEffect, shrinkToFit]

/-- C7: on a `GeometryTransform` node marked invalid, whatever controller and
ctm `onRevalidate` is given, the transform is revalidated once, with no
controller and the identity matrix, after the child; the cached path becomes
the path of the child mapped through the matrix read from the transform after
that revalidation. Hence two calls, with any two controllers and ctm, that
find the same path of the child and the same matrix of the transform cache
the same path. -/
theorem GeometryTransform_revalidates_as_root (nodes : Nodes W GN TN IC M R P)
    (paths : Paths S P M R) (fx : Effects S P R E Rec Mode)
    (g : GeometryEffect S P GN TN Mode) (fTransform : TN) (ic : Option IC) (ctm : M) (w : W)
    (hinval : g.hasInval = true) (hvariant : g.variant = Variant.GeometryTransform fTransform) :
    GeometryEffect.onRevalidate nodes paths fx g ic ctm w =
      some (paths.computeTightBounds
          (paths.transform
            (nodes.asPath (nodes.revalidateTransform (nodes.revalidate w g.fChild ic ctm).2
              fTransform none paths.I).2 g.fChild)
            (nodes.asMatrix (nodes.revalidateTransform (nodes.revalidate w g.fChild ic ctm).2
              fTransform none paths.I).2 fTransform)),
        { g with fPath := (paths.transform
            (nodes.asPath (nodes.revalidateTransform (nodes.revalidate w g.fChild ic ctm).2
              fTransform none paths.I).2 g.fChild)
            (nodes.asMatrix (nodes.revalidateTransform (nodes.revalidate w g.fChild ic ctm).2
              fTransform none paths.I).2 fTransform)) },
        (nodes.revalidateTransform (nodes.revalidate w g.fChild ic ctm).2
          fTransform none paths.I).2,
        [Call.revalidate g.fChild ic ctm, Call.revalidateTransform fTransform none paths.I,
          Call.asMatrix fTransform, Call.asPath g.fChild]) ∧
    ∀ (ic' : Option IC) (ctm' : M) (w' : W),
      nodes.asPath (nodes.revalidateTransform (nodes.revalidate w' g.fChild ic' ctm').2
          fTransform none paths.I).2 g.fChild =
        nodes.asPath (nodes.revalidateTransform (nodes.revalidate w g.fChild ic ctm).2
          fTransform none paths.I).2 g.fChild →
      nodes.asMatrix (nodes.revalidateTransform (nodes.revalidate w' g.fChild ic' ctm').2
          fTransform none paths.I).2 fTransform =
        nodes.asMatrix (nodes.revalidateTransform (nodes.revalidate w g.fChild ic ctm).2
          fTransform none paths.I).2 fTransform →
      (GeometryEffect.onRevalidate nodes paths fx g ic' ctm' w').map (fun r => r.2.1.fPath) =
        (GeometryEffect.onRevalidate nodes paths fx g ic ctm w).map (fun r => r.2.1.fPath) := by
  have key := fun (ic0 : Option IC) (ctm0 : M) (w0 : W) =>
    GeometryTransform_onRevalidate_eq nodes paths fx g fTransform ic0 ctm0 w0 hinval hvariant
  refine ⟨key ic ctm w, ?_⟩
  intro ic' ctm' w' hpath hmatrix
  rw [key ic ctm w, key ic' ctm' w']
  simp only [Option.map_some', hpath, hmatrix]

/-- C7 in the sample scene: called with a controller and the scale-by-3
matrix as ctm, the node revalidates its transform with no controller and the
identity, and caches the square scaled by 2, the matrix of the transform. -/
theorem GeometryTransform_revalidates_as_root_witness :
    GeometryEffect.onRevalidate sampleNodes samplePaths sampleEffects
        (⟨(), [], true, Variant.GeometryTransform ()⟩ :
          GeometryEffect ℚ LinePath Unit Unit SampleMode)
        (some ()) (SkMatrix.Scale 3 3) sampleWorld =
      some (⟨0, 0, 20, 20⟩,
        ⟨(), [⟨0, 0⟩, ⟨20, 0⟩, ⟨20, 20⟩, ⟨0, 20⟩], true, Variant.GeometryTransform ()⟩,
        ⟨sampleSquare, sampleSquare, SkMatrix.Scale 2 2⟩,
        ([Call.revalidate () (some ()) (SkMatrix.Scale 3 3),
          Call.revalidateTransform () none SkMatrix.I,
          Call.asMatrix (), Call.asPath ()] : List SampleCall)) := by
  rw [(GeometryTransform_revalidates_as_root sampleNodes samplePaths sampleEffects
    (⟨(), [], true, Variant.GeometryTransform ()⟩ :
      GeometryEffect ℚ LinePath Unit Unit SampleMode)
    () (some ()) (SkMatrix.Scale 3 3) sampleWorld rfl rfl).1]
  norm_num [sampleNodes, sampleWorld, samplePaths, linePaths, LinePath.computeTightBounds, sampleSquare,
    SkRect.join, LinePath.transform, SkMatrix.mapXY, SkMatrix.Scale, SkMatrix.I]

theorem mapXY_scale_two (p : SkPoint ℚ) :
    (SkMatrix.Scale 2 2).mapXY p = ⟨2 * p.fX, 2 * p.fY⟩ := by
  simp [SkMatrix.mapXY, SkMatrix.Scale]

theorem transform_scale_two (path : LinePath) :
    LinePath.transform path (SkMatrix.Scale 2 2) =
      path.map (fun p => (⟨2 * p.fX, 2 * p.fY⟩ : SkPoint ℚ)) := by
  unfold LinePath.transform
  exact List.map_congr_left (fun p _ => mapXY_scale_two p)

theorem two_mul_min (a b : ℚ) : min (2 * a) (2 * b) = 2 * min a b := by
  rcases le_total a b with h | h
  · rw [min_eq_left h, min_eq_left (by linarith)]
  · rw [min_eq_right h, min_eq_right (by linarith)]

theorem two_mul_max (a b : ℚ) : max (2 * a) (2 * b) = 2 * max a b := by
  rcases le_total a b with h | h
  · rw [max_eq_right h, max_eq_right (by linarith)]
  · rw [max_eq_left h, max_eq_left (by linarith)]

/-- Growing the doubled rectangle by the doubled points gives the doubled
rectangle of the points. -/
theorem foldl_join_double (ps : List (SkPoint ℚ)) (r : SkRect) :
    (ps.map (fun p => (⟨2 * p.fX, 2 * p.fY⟩ : SkPoint ℚ))).foldl SkRect.join
        ⟨2 * r.fLeft, 2 * r.fTop, 2 * r.fRight, 2 * r.fBottom⟩ =
      ⟨2 * (ps.foldl SkRect.join r).fLeft, 2 * (ps.foldl SkRect.join r).fTop,
        2 * (ps.foldl SkRect.join r).fRight, 2 * (ps.foldl SkRect.join r).fBottom⟩ := by
  induction ps generalizing r with
  | nil => rfl
  | cons p ps ih =>
    have hstep : SkRect.join ⟨2 * r.fLeft, 2 * r.fTop, 2 * r.fRight, 2 * r.fBottom⟩
        ⟨2 * p.fX, 2 * p.fY⟩ =
        ⟨2 * (r.join p).fLeft, 2 * (r.join p).fTop, 2 * (r.join p).fRight,
          2 * (r.join p).fBottom⟩ := by
      simp only [SkRect.join, two_mul_min, two_mul_max]
    rw [List.map_cons, List.foldl_cons, List.foldl_cons, hstep, ih]

/-- The tight bounds of the doubled path are the doubled tight bounds. -/
theorem computeTightBounds_double (path : LinePath) :
    LinePath.computeTightBounds (path.map (fun p => (⟨2 * p.fX, 2 * p.fY⟩ : SkPoint ℚ))) =
      ⟨2 * (LinePath.computeTightBounds path).fLeft, 2 * (LinePath.computeTightBounds path).fTop,
        2 * (LinePath.computeTightBounds path).fRight,
        2 * (LinePath.computeTightBounds path).fBottom⟩ := by
  cases path with
  | nil => simp [LinePath.computeTightBounds]
  | cons p ps =>
    simp only [List.map_cons, LinePath.computeTightBounds]
    exact foldl_join_double ps ⟨p.fX, p.fY, p.fX, p.fY⟩

/-- Growing a rectangle by points only enlarges it. -/
theorem foldl_join_grows (ps : List (SkPoint ℚ)) (r : SkRect) :
    (ps.foldl SkRect.join r).fLeft ≤ r.fLeft ∧ (ps.foldl SkRect.join r).fTop ≤ r.fTop ∧
    r.fRight ≤ (ps.foldl SkRect.join r).fRight ∧
    r.fBottom ≤ (ps.foldl SkRect.join r).fBottom := by
  induction ps generalizing r with
  | nil => simp
  | cons p ps ih =>
    obtain ⟨h1, h2, h3, h4⟩ := ih (r.join p)
    simp only [SkRect.join] at h1 h2 h3 h4
    rw [List.foldl_cons]
    exact ⟨h1.trans (min_le_left _ _), h2.trans (min_le_left _ _),
      (le_max_left _ _).trans h3, (le_max_left _ _).trans h4⟩

/-- A rectangle grown by points encloses each of them. -/
theorem foldl_join_encloses (ps : List (SkPoint ℚ)) (r : SkRect) (q : SkPoint ℚ)
    (hq : q ∈ ps) :
    (ps.foldl SkRect.join r).fLeft ≤ q.fX ∧ (ps.foldl SkRect.join r).fTop ≤ q.fY ∧
    q.fX ≤ (ps.foldl SkRect.join r).fRight ∧ q.fY ≤ (ps.foldl SkRect.join r).fBottom := by
  induction ps generalizing r with
  | nil => simp at hq
  | cons p ps ih =>
    rw [List.foldl_cons]
    rcases List.mem_cons.mp hq with rfl | hmem
    · obtain ⟨h1, h2, h3, h4⟩ := foldl_join_grows ps (r.join q)
      simp only [SkRect.join] at h1 h2 h3 h4
      exact ⟨h1.trans (min_le_right _ _), h2.trans (min_le_right _ _),
        (le_max_right _ _).trans h3, (le_max_right _ _).trans h4⟩
    · exact ih (r.join p) hmem

/-- The tight bounds of a straight-line path enclose every point of it. -/
theorem computeTightBounds_encloses (path : LinePath) (q : SkPoint ℚ) (hq : q ∈ path) :
    (LinePath.computeTightBounds path).fLeft ≤ q.fX ∧
    (LinePath.computeTightBounds path).fTop ≤ q.fY ∧
    q.fX ≤ (LinePath.computeTightBounds path).fRight ∧
    q.fY ≤ (LinePath.computeTightBounds path).fBottom := by
  cases path with
  | nil => simp at hq
  | cons p ps =>
    simp only [LinePath.computeTightBounds]
    rcases List.mem_cons.mp hq with rfl | hmem
    · exact foldl_join_grows ps ⟨q.fX, q.fY, q.fX, q.fY⟩
    · exact foldl_join_encloses ps _ q hmem

/-- Each side of a rectangle grown by points is a side of the rectangle it
grew from or passes through one of the points. -/
theorem foldl_join_touches (ps : List (SkPoint ℚ)) (r : SkRect) :
    ((ps.foldl SkRect.join r).fLeft = r.fLeft ∨
      ∃ q ∈ ps, (ps.foldl SkRect.join r).fLeft = q.fX) ∧
    ((ps.foldl SkRect.join r).fTop = r.fTop ∨
      ∃ q ∈ ps, (ps.foldl SkRect.join r).fTop = q.fY) ∧
    ((ps.foldl SkRect.join r).fRight = r.fRight ∨
      ∃ q ∈ ps, (ps.foldl SkRect.join r).fRight = q.fX) ∧
    ((ps.foldl SkRect.join r).fBottom = r.fBottom ∨
      ∃ q ∈ ps, (ps.foldl SkRect.join r).fBottom = q.fY) := by
  induction ps generalizing r with
  | nil => simp
  | cons p ps ih =>
    rw [List.foldl_cons]
    obtain ⟨h1, h2, h3, h4⟩ := ih (r.join p)
    refine ⟨?_, ?_, ?_, ?_⟩
    · rcases h1 with h | ⟨q, hq, h⟩
      · rcases min_choice r.fLeft p.fX with hm | hm
        · exact Or.inl (h.trans hm)
        · exact Or.inr ⟨p, List.mem_cons_self _ _, h.trans hm⟩
      · exact Or.inr ⟨q, List.mem_cons_of_mem _ hq, h⟩
    · rcases h2 with h | ⟨q, hq, h⟩
      · rcases min_choice r.fTop p.fY with hm | hm
        · exact Or.inl (h.trans hm)
        · exact Or.inr ⟨p, List.mem_cons_self _ _, h.trans hm⟩
      · exact Or.inr ⟨q, List.mem_cons_of_mem _ hq, h⟩
    · rcases h3 with h | ⟨q, hq, h⟩
      · rcases max_choice r.fRight p.fX with hm | hm
        · exact Or.inl (h.trans hm)
        · exact Or.inr ⟨p, List.mem_cons_self _ _, h.trans hm⟩
      · exact Or.inr ⟨q, List.mem_cons_of_mem _ hq, h⟩
    · rcases h4 with h | ⟨q, hq, h⟩
      · rcases max_choice r.fBottom p.fY with hm | hm
        · exact Or.inl (h.trans hm)
        · exact Or.inr ⟨p, List.mem_cons_self _ _, h.trans hm⟩
      · exact Or.inr ⟨q, List.mem_cons_of_mem _ hq, h⟩

/-- The tight bounds of a straight-line path with a point are tight: each
side passes through a point of the path. -/
theorem computeTightBounds_touches (path : LinePath) (hne : path ≠ []) :
    (∃ q ∈ path, (LinePath.computeTightBounds path).fLeft = q.fX) ∧
    (∃ q ∈ path, (LinePath.computeTightBounds path).fTop = q.fY) ∧
    (∃ q ∈ path, (LinePath.computeTightBounds path).fRight = q.fX) ∧
    (∃ q ∈ path, (LinePath.computeTightBounds path).fBottom = q.fY) := by
  cases path with
  | nil => exact absurd rfl hne
  | cons p ps =>
    simp only [LinePath.computeTightBounds]
    obtain ⟨h1, h2, h3, h4⟩ := foldl_join_touches ps ⟨p.fX, p.fY, p.fX, p.fY⟩
    refine ⟨?_, ?_, ?_, ?_⟩
    · rcases h1 with h | ⟨q, hq, h⟩
      · exact ⟨p, List.mem_cons_self _ _, h⟩
      · exact ⟨q, List.mem_cons_of_mem _ hq, h⟩
    · rcases h2 with h | ⟨q, hq, h⟩
      · exact ⟨p, List.mem_cons_self _ _, h⟩
      · exact ⟨q, List.mem_cons_of_mem _ hq, h⟩
    · rcases h3 with h | ⟨q, hq, h⟩
      · exact ⟨p, List.mem_cons_self _ _, h⟩
      · exact ⟨q, List.mem_cons_of_mem _ hq, h⟩
    · rcases h4 with h | ⟨q, hq, h⟩
      · exact ⟨p, List.mem_cons_self _ _, h⟩
      · exact ⟨q, List.mem_cons_of_mem _ hq, h⟩

/-- C6: on a `GeometryTransform` node marked invalid over straight-line
paths, when the matrix read from the transform after its revalidation is the
scale-by-2 matrix, `onRevalidate` caches the path of the child with every
coordinate of every point doubled, and the tight bounds it returns have twice
the width and twice the height of the tight bounds of the path of the
child. -/
theorem GeometryTransform_scale_by_two
    (nodes : Nodes W GN TN IC SkMatrix SkRect LinePath)
    (contains : LinePath → ℚ → ℚ → Bool) (fx : Effects ℚ LinePath SkRect E Rec Mode)
    (g : GeometryEffect ℚ LinePath GN TN Mode) (fTransform : TN)
    (ic : Option IC) (ctm : SkMatrix) (w : W)
    (hinval : g.hasInval = true) (hvariant : g.variant = Variant.GeometryTransform fTransform)
    (hscale : nodes.asMatrix (nodes.revalidateTransform (nodes.revalidate w g.fChild ic ctm).2
      fTransform none SkMatrix.I).2 fTransform = SkMatrix.Scale 2 2) :
    ∃ (bounds : SkRect) (g' : GeometryEffect ℚ LinePath GN TN Mode)
      (calls : List (Call ℚ LinePath SkMatrix IC GN TN E Mode)),
      GeometryEffect.onRevalidate nodes (linePaths contains) fx g ic ctm w =
        some (bounds, g', (nodes.revalidateTransform (nodes.revalidate w g.fChild ic ctm).2
          fTransform none SkMatrix.I).2, calls) ∧
      g'.fPath = (nodes.asPath (nodes.revalidateTransform
          (nodes.revalidate w g.fChild ic ctm).2 fTransform none SkMatrix.I).2 g.fChild).map
        (fun p => (⟨2 * p.fX, 2 * p.fY⟩ : SkPoint ℚ)) ∧
      bounds.width = 2 * (LinePath.computeTightBounds (nodes.asPath (nodes.revalidateTransform
          (nodes.revalidate w g.fChild ic ctm).2 fTransform none SkMatrix.I).2 g.fChild)).width ∧
      bounds.height = 2 * (LinePath.computeTightBounds (nodes.asPath (nodes.revalidateTransform
          (nodes.revalidate w g.fChild ic ctm).2 fTransform none SkMatrix.I).2 g.fChild)).height := by
  have heq := GeometryTransform_onRevalidate_eq nodes (linePaths contains) fx g fTransform
    ic ctm w hinval hvariant
  have hI : (linePaths contains).I = SkMatrix.I := rfl
  have hT : (linePaths contains).transform = LinePath.transform := rfl
  have hB : (linePaths contains).computeTightBounds = LinePath.computeTightBounds := rfl
  rw [hI, hT, hB, hscale, transform_scale_two, computeTightBounds_double] at heq
  refine ⟨_, _, _, heq, rfl, ?_, ?_⟩
  · simp only [SkRect.width]
    ring
  · simp only [SkRect.height]
    ring

/-- C6 in the sample scene: the square of side 10 under the scale-by-2
transform is cached as the square of side 20, and the returned bounds are 20
wide and 20 high. -/
theorem GeometryTransform_scale_by_two_witness :
    ∃ (bounds : SkRect) (g' : GeometryEffect ℚ LinePath Unit Unit SampleMode)
      (calls : List SampleCall),
      GeometryEffect.onRevalidate sampleNodes samplePaths sampleEffects
          (⟨(), [], true, Variant.GeometryTransform ()⟩ :
            GeometryEffect ℚ LinePath Unit Unit SampleMode)
          none SkMatrix.I sampleWorld =
        some (bounds, g', ⟨sampleSquare, sampleSquare, SkMatrix.Scale 2 2⟩, calls) ∧
      g'.fPath = [⟨0, 0⟩, ⟨20, 0⟩, ⟨20, 20⟩, ⟨0, 20⟩] ∧
      bounds.width = 20 ∧ bounds.height = 20 := by
  obtain ⟨bounds, g', calls, h1, h2, h3, h4⟩ :=
    GeometryTransform_scale_by_two sampleNodes sampleContains sampleEffects
      (⟨(), [], true, Variant.GeometryTransform ()⟩ :
        GeometryEffect ℚ LinePath Unit Unit SampleMode)
      () none SkMatrix.I sampleWorld rfl rfl rfl
  refine ⟨bounds, g', calls, h1, ?_, ?_, ?_⟩
  · rw [h2]
    norm_num [sampleNodes, sampleWorld, sampleSquare]
  · rw [h3]
    norm_num [sampleNodes, sampleWorld, sampleSquare, LinePath.computeTightBounds, SkRect.join,
      SkRect.width]
  · rw [h4]
    norm_num [sampleNodes, sampleWorld, sampleSquare, LinePath.computeTightBounds, SkRect.join,
      SkRect.height]

variable {Canvas Paint : Type}

theorem read_node (paths : Paths S P M R) (cv : Canvases Canvas P Paint)
    (g : GeometryEffect S P GN TN Mode) (canvas : Canvas) (op : Read S Paint) :
    (GeometryEffect.read paths cv g canvas op).2.1 = g := by
  cases op <;> rfl

/-- C8: a read operation leaves the node as it is, and so does any sequence
of them: `asPath` replies with the cached path every time, `contains` with the
answer of the cached path for the point every time, and `draw` and `clip` hand
the cached path to the canvas every time, `clip` with the intersect
operation and the antiAlias flag of the caller. -/
theorem GeometryEffect_reads_frame (paths : Paths S P M R) (cv : Canvases Canvas P Paint)
    (g : GeometryEffect S P GN TN Mode) :
    (∀ (canvas : Canvas) (op : Read S Paint),
      GeometryEffect.read paths cv g canvas op =
        (match op with
          | .asPath => Reply.path g.fPath
          | .contains p => Reply.bool (paths.contains g.fPath p.fX p.fY)
          | .draw _ => Reply.done
          | .clip _ => Reply.done,
         g,
         match op with
          | .draw paint => cv.drawPath canvas g.fPath paint
          | .clip antiAlias => cv.clipPath canvas g.fPath SkClipOp.kIntersect antiAlias
          | _ => canvas)) ∧
    (∀ (canvas : Canvas) (ops : List (Read S Paint)),
      GeometryEffect.reads paths cv g canvas ops =
        (ops.map (fun op => match op with
          | .asPath => Reply.path g.fPath
          | .contains p => Reply.bool (paths.contains g.fPath p.fX p.fY)
          | .draw _ => Reply.done
          | .clip _ => Reply.done),
         g,
         ops.foldl (fun c op => match op with
          | .draw paint => cv.drawPath c g.fPath paint
          | .clip antiAlias => cv.clipPath c g.fPath SkClipOp.kIntersect antiAlias
          | _ => c) canvas)) := by
  have hread : ∀ (canvas : Canvas) (op : Read S Paint),
      GeometryEffect.read paths cv g canvas op =
        (match op with
          | .asPath => Reply.path g.fPath
          | .contains p => Reply.bool (paths.contains g.fPath p.fX p.fY)
          | .draw _ => Reply.done
          | .clip _ => Reply.done,
         g,
         match op with
          | .draw paint => cv.drawPath canvas g.fPath paint
          | .clip antiAlias => cv.clipPath canvas g.fPath SkClipOp.kIntersect antiAlias
          | _ => canvas) := by
    intro canvas op
    cases op <;> rfl
  refine ⟨hread, ?_⟩
  intro canvas ops
  induction ops generalizing canvas with
  | nil => rfl
  | cons op ops ih =>
    unfold GeometryEffect.reads
    dsimp only
    rw [hread canvas op]
    dsimp only
    rw [ih]
    rfl

end Properties

end sksg
